import Mathlib

/-!
Verification development for the nebulizer repository.

The repository revision model (`Repository`, `Revision`, `newRepository`,
`addRevision`, `revisions`, `compositeId`, `revisionId`) and the toolshed
URL helper `normalise_toolshed_url` live in `nebulizer/tools.py`, which is
not included under `src/`; those parts are modelled from the specification
(sections 3, 4.1, 7 and 8 of the design document) and cross-checked against
the behaviour pinned down by `src/test/test_tools.py`. The quota model
(`Quota.update`, `handle_quota_spec`) is embedded directly from
`src/nebulizer/quotas.py`.
-/

/-- Modelled from the spec: the error taxonomy of section 7 for the revision
model of `nebulizer/tools.py` (absent from `src/`): `IdentityMismatch` for a
record whose repository identity does not match, `MalformedRecord` for missing
required fields or unparseable numeric or boolean fields. -/
inductive MergeError where
  | identityMismatch
  | malformedRecord
deriving DecidableEq, Repr

/-- Modelled from the spec: a raw per-revision API record as consumed by the
revision model of `nebulizer/tools.py` (absent from `src/`). Each field is
optional because the record is a JSON mapping that may omit keys; boolean
flags under `tool_shed_status` arrive as the strings "True"/"False" and
`ctx_rev` as a numeric string, per section 4.1. -/
structure RawRecord where
  tool_shed : Option String
  owner : Option String
  name : Option String
  changeset_revision : Option String
  ctx_rev : Option String
  status : Option String
  deleted : Option Bool
  revision_update : Option String
  revision_upgrade : Option String
  latest_installable_revision : Option String
deriving DecidableEq, Repr

/-- Parse a string-encoded boolean as delivered by the API ("True"/"False"). -/
def parseBoolStr : String → Option Bool
  | "True" => some true
  | "False" => some false
  | _ => none

/-- Parse a numeric string (such as `ctx_rev`) into a natural number; fails on
an empty string or any non-digit character. -/
def parseNatStr (s : String) : Option Nat :=
  if s.data ≠ [] ∧ s.data.all (fun c => c.isDigit) then
    some (s.data.foldl (fun n c => 10 * n + (c.toNat - 48)) 0)
  else none

/-- Modelled from the spec: one installed revision of a toolshed repository
(section 3 of the design document; `nebulizer/tools.py` is absent from
`src/`). `latestRevision` is a derived flag recomputed across the whole set
on every merge. -/
structure Revision where
  revisionNumber : Nat
  changesetRevision : String
  status : String
  deleted : Bool
  revisionUpdate : Bool
  revisionUpgrade : Bool
  latestRevision : Bool
deriving DecidableEq, Repr

/-- Modelled from the spec: derived display identity of a revision, formatted
as revisionNumber, a colon, then changesetRevision. -/
def Revision.revisionId (r : Revision) : String :=
  toString r.revisionNumber ++ ":" ++ r.changesetRevision

/-- Modelled from the spec: parse the revision-specific fields of a raw
record; every required field must be present and parseable, otherwise the
whole parse fails (all-or-nothing). The `latest_installable_revision` flag is
validated but `latestRevision` itself is derived across the revision set, so
the freshly parsed revision starts with the flag cleared. -/
def parseRevisionOpt (record : RawRecord) : Option Revision :=
  match record.ctx_rev.bind parseNatStr with
  | none => none
  | some num =>
    match record.changeset_revision with
    | none => none
    | some changeset =>
      match record.status with
      | none => none
      | some st =>
        match record.deleted with
        | none => none
        | some del =>
          match record.revision_update.bind parseBoolStr with
          | none => none
          | some upd =>
            match record.revision_upgrade.bind parseBoolStr with
            | none => none
            | some upg =>
              match record.latest_installable_revision.bind parseBoolStr with
              | none => none
              | some _ =>
                some { revisionNumber := num, changesetRevision := changeset,
                       status := st, deleted := del, revisionUpdate := upd,
                       revisionUpgrade := upg, latestRevision := false }

/-- Modelled from the spec: parsing a record either succeeds or fails with
`MalformedRecord` (section 7). -/
def parseRevision (record : RawRecord) : Except MergeError Revision :=
  match parseRevisionOpt record with
  | some rev => .ok rev
  | none => .error .malformedRecord

/-- Modelled from the spec: an installed toolshed repository with its
normalized revision history (section 3; `nebulizer/tools.py` is absent from
`src/`). `revs` holds the revisions in arrival order; the `revisions` query
sorts them. -/
structure Repository where
  toolShed : String
  owner : String
  name : String
  revs : List Revision
deriving DecidableEq, Repr

/-- Modelled from the spec: stable identity key of a repository, derived as
toolShed, owner and name joined by slashes. -/
def Repository.compositeId (repo : Repository) : String :=
  repo.toolShed ++ "/" ++ repo.owner ++ "/" ++ repo.name

/-- Clear the derived latest flag of a revision. -/
def clearLatest (r : Revision) : Revision := { r with latestRevision := false }

/-- Set the derived latest flag of a revision. -/
def setLatest (r : Revision) : Revision := { r with latestRevision := true }

/-- Greatest revision number occurring in a list of revisions (0 when empty). -/
def maxRevisionNumber (revs : List Revision) : Nat :=
  revs.foldl (fun m r => max m r.revisionNumber) 0

/-- Mark the first revision whose number equals `m` as latest and clear the
flag on every other revision; ties therefore resolve to the first-added
revision, as section 4.1 requires. -/
def markFirstMax (m : Nat) : List Revision → List Revision
  | [] => []
  | r :: rest =>
      if r.revisionNumber = m then setLatest r :: rest.map clearLatest
      else clearLatest r :: markFirstMax m rest

/-- Modelled from the spec: re-derive `latestRevision` across the whole
revision set — the revision with the numerically greatest revision number is
marked latest, all others cleared (section 4.1). -/
def recomputeLatest (revs : List Revision) : List Revision :=
  markFirstMax (maxRevisionNumber revs) revs

/-- Repository identity carried by a raw record, when all three identity
fields are present. -/
def getIdentity (record : RawRecord) : Option (String × String × String) :=
  match record.tool_shed with
  | none => none
  | some ts =>
    match record.owner with
    | none => none
    | some o =>
      match record.name with
      | none => none
      | some n => some (ts, o, n)

/-- Modelled from the spec: construct a Repository seeded with one initial
revision derived from the record (section 4.1 construction contract); the
latest flag is derived over the singleton set. -/
def newRepository (record : RawRecord) : Except MergeError Repository :=
  match getIdentity record with
  | none => .error .malformedRecord
  | some (ts, o, n) =>
      match parseRevision record with
      | .error e => .error e
      | .ok rev => .ok { toolShed := ts, owner := o, name := n,
                         revs := recomputeLatest [rev] }

/-- Modelled from the spec: merge a further record into a Repository.
Identity is validated first (failing with `IdentityMismatch`), then the
revision is parsed (failing with `MalformedRecord`); on success the new
revision is appended and `latestRevision` is recomputed across the full
updated set (section 4.1). -/
def addRevision (repo : Repository) (record : RawRecord) : Except MergeError Repository :=
  match getIdentity record with
  | none => .error .malformedRecord
  | some (ts, o, n) =>
      if ts = repo.toolShed ∧ o = repo.owner ∧ n = repo.name then
        match parseRevision record with
        | .error e => .error e
        | .ok rev => .ok { repo with revs := recomputeLatest (repo.revs ++ [rev]) }
      else .error .identityMismatch

/-- Result of a merge attempt as seen by a caller that keeps its repository
on failure: the successor state on success, the untouched original on error. -/
def mergeOrKeep (repo : Repository) (record : RawRecord) : Repository :=
  match addRevision repo record with
  | .ok repo2 => repo2
  | .error _ => repo

/-- Construct a repository from the first record and merge every remaining
record in order via `addRevision`, propagating the first error. -/
def mergeAll (record0 : RawRecord) (records : List RawRecord) : Except MergeError Repository :=
  records.foldl
    (fun acc record =>
      match acc with
      | .error e => .error e
      | .ok repo => addRevision repo record)
    (newRepository record0)

/-- Insert a revision into a list sorted by revision number descending,
placing it before the first element with a smaller-or-equal number, so that
the sort is stable. -/
def insertDesc (r : Revision) : List Revision → List Revision
  | [] => [r]
  | x :: xs =>
      if r.revisionNumber < x.revisionNumber then x :: insertDesc r xs
      else r :: x :: xs

/-- Stable insertion sort of revisions by revision number, descending. -/
def sortDescRevs : List Revision → List Revision
  | [] => []
  | r :: rest => insertDesc r (sortDescRevs rest)

/-- Modelled from the spec: the `revisions` query — the revision collection
ordered by revision number descending, most recent first (section 4.1 query
contract). -/
def Repository.revisions (repo : Repository) : List Revision :=
  sortDescRevs repo.revs

/-- Modelled from the spec: `normalise_toolshed_url` of `nebulizer/tools.py`
(absent from `src/`), with the behaviour pinned by
`src/test/test_tools.py`: a URL already carrying an explicit http or https
scheme is returned unchanged, any other value gets an https scheme
prepended. -/
def normalise_toolshed_url (tool_shed : String) : String :=
  if "http://".data.isPrefixOf tool_shed.data ∨ "https://".data.isPrefixOf tool_shed.data then
    tool_shed
  else "https://" ++ tool_shed

/-- Attributes of `Quota` that are read-only properties in
`nebulizer/quotas.py`; assigning them raises `AttributeError`, which
`Quota.update` swallows, so such keys are skipped. -/
def quotaReadonlyAttrs : List String := ["default_for", "list_users", "list_groups"]

/-- State of a `Quota` object of `nebulizer/quotas.py`: the quota id together
with the table of its other writable attributes. Attribute values are kept
abstract in the type parameter. -/
structure Quota (α : Type) where
  id : α
  attrs : List (String × α)
deriving DecidableEq

/-- Write one key of an association list, appending when absent. -/
def setAssoc {α : Type} : List (String × α) → String → α → List (String × α)
  | [], k, v => [(k, v)]
  | (k2, v2) :: rest, k, v =>
      if k2 = k then (k, v) :: rest else (k2, v2) :: setAssoc rest k v

/-- One `setattr` step of `Quota.update`: read-only properties are skipped
(the raised `AttributeError` is caught and ignored), the id field and every
other attribute are written. -/
def setQuotaAttr {α : Type} (q : Quota α) (k : String) (v : α) : Quota α :=
  if k ∈ quotaReadonlyAttrs then q
  else if k = "id" then { q with id := v }
  else { q with attrs := setAssoc q.attrs k v }

/-- Embedding of `Quota.update` of `src/nebulizer/quotas.py`: look up the
record id (a missing key is Python's `KeyError`), reject the record when it
differs from the quota id, otherwise apply `setattr` for every key of the
record in order. -/
def Quota.update {α : Type} [DecidableEq α] (q : Quota α) (quota_data : List (String × α)) :
    Except String (Quota α) :=
  match quota_data.lookup "id" with
  | none => .error "KeyError: id"
  | some v =>
      if v ≠ q.id then
        .error "Tried to update data for quota with data for another quota"
      else
        .ok (quota_data.foldl (fun q2 kv => setQuotaAttr q2 kv.1 kv.2) q)

/-- Result of `Quota.update` as seen by a caller that keeps the original
quota when the call raises. -/
def updateOrKeep {α : Type} [DecidableEq α] (q : Quota α) (d : List (String × α)) : Quota α :=
  match Quota.update q d with
  | .ok q2 => q2
  | .error _ => q

/-- Embedding of the `valid_operations` tuple of `handle_quota_spec` in
`src/nebulizer/quotas.py`. -/
def valid_operations : List Char := ['=', '+', '-']

/-- Embedding of `handle_quota_spec` of `src/nebulizer/quotas.py`: split a
quota specification into operation and amount; a leading '=', '+' or '-' is
the operation and the rest the amount, otherwise the operation defaults to
'=' and the whole string is the amount. The empty string has no first
character (Python would raise `IndexError`), hence `none`. -/
def handle_quota_spec (quota : String) : Option (Char × String) :=
  match quota.data with
  | [] => none
  | c :: rest =>
      if c ∈ valid_operations then some (c, String.mk rest)
      else some ('=', quota)

/-- First trimmomatic record of the test suite (revision number 2, the newer
revision, flagged as the latest installable one by the toolshed). -/
def recTrim2 : RawRecord :=
  { tool_shed := some "toolshed.g2.bx.psu.edu", owner := some "pjbriggs",
    name := some "trimmomatic", changeset_revision := some "a60283899c6d",
    ctx_rev := some "2", status := some "Installed", deleted := some false,
    revision_update := some "False", revision_upgrade := some "False",
    latest_installable_revision := some "True" }

/-- Second trimmomatic record of the test suite (revision number 1, the older
revision, with an upgrade available). -/
def recTrim1 : RawRecord :=
  { tool_shed := some "toolshed.g2.bx.psu.edu", owner := some "pjbriggs",
    name := some "trimmomatic", changeset_revision := some "2bd7cdbb6228",
    ctx_rev := some "1", status := some "Installed", deleted := some false,
    revision_update := some "False", revision_upgrade := some "True",
    latest_installable_revision := some "False" }

/-- Repository obtained by constructing from `recTrim2` alone. -/
def repoTrim2 : Repository :=
  { toolShed := "toolshed.g2.bx.psu.edu", owner := "pjbriggs", name := "trimmomatic",
    revs := [{ revisionNumber := 2, changesetRevision := "a60283899c6d",
               status := "Installed", deleted := false, revisionUpdate := false,
               revisionUpgrade := false, latestRevision := true }] }

/-- Repository obtained by constructing from `recTrim1` and merging
`recTrim2`, mirroring the arrival order of the multiple-revision test. -/
def repoTrimBoth : Repository :=
  { toolShed := "toolshed.g2.bx.psu.edu", owner := "pjbriggs", name := "trimmomatic",
    revs := [{ revisionNumber := 1, changesetRevision := "2bd7cdbb6228",
               status := "Installed", deleted := false, revisionUpdate := false,
               revisionUpgrade := true, latestRevision := false },
             { revisionNumber := 2, changesetRevision := "a60283899c6d",
               status := "Installed", deleted := false, revisionUpdate := false,
               revisionUpgrade := false, latestRevision := true }] }

lemma foldlMax_le (revs : List Revision) (a : Nat) :
    a ≤ revs.foldl (fun m r => max m r.revisionNumber) a := by
  induction revs generalizing a with
  | nil => simp
  | cons x xs ih =>
      rw [List.foldl_cons]
      exact le_trans (le_max_left a x.revisionNumber) (ih (max a x.revisionNumber))

lemma mem_le_foldlMax (revs : List Revision) (a : Nat) :
    ∀ r ∈ revs, r.revisionNumber ≤ revs.foldl (fun m r2 => max m r2.revisionNumber) a := by
  induction revs generalizing a with
  | nil => intro r hr; cases hr
  | cons x xs ih =>
      intro r hr
      rw [List.foldl_cons]
      rcases List.mem_cons.mp hr with h | h
      · subst h
        exact le_trans (le_max_right a r.revisionNumber) (foldlMax_le xs _)
      · exact ih (max a x.revisionNumber) r h

lemma foldlMax_eq_or_mem (revs : List Revision) (a : Nat) :
    revs.foldl (fun m r => max m r.revisionNumber) a = a ∨
    ∃ r ∈ revs, revs.foldl (fun m r => max m r.revisionNumber) a = r.revisionNumber := by
  induction revs generalizing a with
  | nil => left; rfl
  | cons x xs ih =>
      rw [List.foldl_cons]
      rcases ih (max a x.revisionNumber) with h | ⟨r, hr, he⟩
      · rw [h]
        rcases max_choice a x.revisionNumber with h2 | h2
        · left; exact h2
        · right; exact ⟨x, List.mem_cons_self x xs, h2⟩
      · right; exact ⟨r, List.mem_cons_of_mem x hr, he⟩

lemma maxRevisionNumber_le (revs : List Revision) :
    ∀ r ∈ revs, r.revisionNumber ≤ maxRevisionNumber revs :=
  mem_le_foldlMax revs 0

lemma maxRevisionNumber_mem (revs : List Revision) (h : revs ≠ []) :
    ∃ r ∈ revs, r.revisionNumber = maxRevisionNumber revs := by
  rcases foldlMax_eq_or_mem revs 0 with h0 | ⟨r, hr, he⟩
  · cases revs with
    | nil => exact absurd rfl h
    | cons x xs =>
        refine ⟨x, List.mem_cons_self x xs, ?_⟩
        have hx := maxRevisionNumber_le (x :: xs) x (List.mem_cons_self x xs)
        have h1 : maxRevisionNumber (x :: xs) = 0 := h0
        omega
  · exact ⟨r, hr, he.symm⟩

lemma markFirstMax_map_number (m : Nat) (revs : List Revision) :
    (markFirstMax m revs).map (fun r => r.revisionNumber) =
      revs.map (fun r => r.revisionNumber) := by
  induction revs with
  | nil => rfl
  | cons x xs ih =>
      by_cases hx : x.revisionNumber = m
      · simp [markFirstMax, hx, setLatest, clearLatest, List.map_map, Function.comp]
      · simp [markFirstMax, hx, clearLatest, ih]

lemma filter_latest_clearLatest (l : List Revision) :
    (l.map clearLatest).filter (fun r => r.latestRevision) = [] := by
  induction l with
  | nil => rfl
  | cons x xs ih => simp [clearLatest, List.filter_cons, ih]

lemma markFirstMax_filter_latest (m : Nat) (revs : List Revision)
    (h : ∃ r ∈ revs, r.revisionNumber = m) :
    ((markFirstMax m revs).filter (fun r => r.latestRevision)).length = 1 := by
  induction revs with
  | nil => rcases h with ⟨r, hr, _⟩; cases hr
  | cons x xs ih =>
      by_cases hx : x.revisionNumber = m
      · simp [markFirstMax, hx, setLatest, List.filter_cons, filter_latest_clearLatest]
      · have h2 : ∃ r ∈ xs, r.revisionNumber = m := by
          rcases h with ⟨r, hr, he⟩
          rcases List.mem_cons.mp hr with h3 | h3
          · subst h3; exact absurd he hx
          · exact ⟨r, h3, he⟩
        simp [markFirstMax, hx, clearLatest, List.filter_cons, ih h2]

lemma markFirstMax_latest_number (m : Nat) (revs : List Revision) :
    ∀ r ∈ markFirstMax m revs, r.latestRevision = true → r.revisionNumber = m := by
  induction revs with
  | nil => intro r hr; cases hr
  | cons x xs ih =>
      intro r hr hl
      simp only [markFirstMax] at hr
      by_cases hx : x.revisionNumber = m
      · rw [if_pos hx] at hr
        rcases List.mem_cons.mp hr with h3 | h3
        · subst h3; exact hx
        · rcases List.mem_map.mp h3 with ⟨r0, _, he⟩
          rw [← he] at hl
          simp [clearLatest] at hl
      · rw [if_neg hx] at hr
        rcases List.mem_cons.mp hr with h3 | h3
        · subst h3; simp [clearLatest] at hl
        · exact ih r h3 hl

lemma recomputeLatest_good (revs : List Revision) (h : revs ≠ []) :
    (((recomputeLatest revs).filter (fun r => r.latestRevision)).length = 1) ∧
    ∀ r ∈ recomputeLatest revs, r.latestRevision = true →
      ∀ r2 ∈ recomputeLatest revs, r2.revisionNumber ≤ r.revisionNumber := by
  constructor
  · exact markFirstMax_filter_latest _ _ (maxRevisionNumber_mem revs h)
  · intro r hr hl r2 hr2
    have h1 : r.revisionNumber = maxRevisionNumber revs :=
      markFirstMax_latest_number _ _ r hr hl
    have h2 : r2.revisionNumber ∈ revs.map (fun r3 => r3.revisionNumber) := by
      rw [← markFirstMax_map_number (maxRevisionNumber revs) revs]
      exact List.mem_map_of_mem _ hr2
    rcases List.mem_map.mp h2 with ⟨r0, hr0, he⟩
    rw [h1, ← he]
    exact maxRevisionNumber_le revs r0 hr0

lemma newRepository_ok_inv (record : RawRecord) (repo : Repository)
    (h : newRepository record = .ok repo) :
    getIdentity record = some (repo.toolShed, repo.owner, repo.name) ∧
    ∃ rev, parseRevision record = .ok rev ∧ repo.revs = recomputeLatest [rev] := by
  unfold newRepository at h
  split at h
  · exact Except.noConfusion h
  · split at h
    · exact Except.noConfusion h
    · rename_i heqid x rev heqparse
      injection h with h5
      subst h5
      exact ⟨heqid, rev, heqparse, rfl⟩

lemma addRevision_ok_shape (repo : Repository) (record : RawRecord) (repo2 : Repository)
    (h : addRevision repo record = .ok repo2) :
    (∃ rev, repo2.revs = recomputeLatest (repo.revs ++ [rev])) ∧
    repo2.toolShed = repo.toolShed ∧ repo2.owner = repo.owner ∧ repo2.name = repo.name := by
  unfold addRevision at h
  split at h
  · exact Except.noConfusion h
  · split at h
    · split at h
      · exact Except.noConfusion h
      · rename_i rev heqparse
        injection h with h5
        subst h5
        exact ⟨⟨rev, rfl⟩, rfl, rfl, rfl⟩
    · exact Except.noConfusion h

lemma foldl_addRevision_shape (records : List RawRecord)
    (acc : Except MergeError Repository)
    (hacc : ∀ repo1, acc = .ok repo1 → ∃ l, l ≠ [] ∧ repo1.revs = recomputeLatest l)
    (repo : Repository)
    (h : records.foldl
      (fun a record =>
        match a with
        | .error e => .error e
        | .ok rp => addRevision rp record) acc = .ok repo) :
    ∃ l, l ≠ [] ∧ repo.revs = recomputeLatest l := by
  induction records generalizing acc with
  | nil => exact hacc repo h
  | cons x xs ih =>
      rw [List.foldl_cons] at h
      refine ih _ ?_ h
      intro repo1 h1
      cases acc with
      | error e => exact Except.noConfusion h1
      | ok rp =>
          have h2 : addRevision rp x = .ok repo1 := h1
          rcases (addRevision_ok_shape rp x repo1 h2).1 with ⟨rev, he⟩
          exact ⟨rp.revs ++ [rev], by simp, he⟩

/-- Claim C1: for a sequence of records sharing one repository identity,
after the Repository is constructed from the first record and every remaining
record is merged via `addRevision`, exactly one revision of the resulting set
has `latestRevision` true, and that revision has the numerically maximum
`revisionNumber`; this holds for every arrival order of the records. -/
theorem mergeAll_exactly_one_latest (record0 : RawRecord) (records : List RawRecord)
    (repo : Repository) (h : mergeAll record0 records = .ok repo) :
    ((repo.revs.filter (fun r => r.latestRevision)).length = 1) ∧
    ∀ r ∈ repo.revs, r.latestRevision = true →
      ∀ r2 ∈ repo.revs, r2.revisionNumber ≤ r.revisionNumber := by
  have hshape : ∃ l, l ≠ [] ∧ repo.revs = recomputeLatest l := by
    unfold mergeAll at h
    refine foldl_addRevision_shape records _ ?_ repo h
    intro repo1 h1
    rcases (newRepository_ok_inv record0 repo1 h1).2 with ⟨rev, _, he⟩
    exact ⟨[rev], by simp, he⟩
  rcases hshape with ⟨l, hl, he⟩
  rw [he]
  exact recomputeLatest_good l hl

/-- Witness for claim C1 at the two trimmomatic records of the test suite,
merged oldest-last is not required: the newer record arrives second here. -/
theorem mergeAll_exactly_one_latest_witness :
    mergeAll recTrim1 [recTrim2] = .ok repoTrimBoth ∧
    (((repoTrimBoth.revs.filter (fun r => r.latestRevision)).length = 1) ∧
     ∀ r ∈ repoTrimBoth.revs, r.latestRevision = true →
       ∀ r2 ∈ repoTrimBoth.revs, r2.revisionNumber ≤ r.revisionNumber) :=
  ⟨rfl, mergeAll_exactly_one_latest recTrim1 [recTrim2] repoTrimBoth rfl⟩

lemma mem_insertDesc (r x : Revision) (l : List Revision) :
    x ∈ insertDesc r l ↔ x = r ∨ x ∈ l := by
  induction l with
  | nil => simp [insertDesc]
  | cons y ys ih =>
      by_cases hc : r.revisionNumber < y.revisionNumber
      · simp only [insertDesc, if_pos hc, List.mem_cons, ih]
        tauto
      · simp only [insertDesc, if_neg hc, List.mem_cons]

lemma insertDesc_pairwise (r : Revision) (l : List Revision)
    (h : List.Pairwise (fun a b => b.revisionNumber ≤ a.revisionNumber) l) :
    List.Pairwise (fun a b => b.revisionNumber ≤ a.revisionNumber) (insertDesc r l) := by
  induction l with
  | nil => simp [insertDesc]
  | cons y ys ih =>
      rcases List.pairwise_cons.mp h with ⟨hy, hys⟩
      by_cases hc : r.revisionNumber < y.revisionNumber
      · simp only [insertDesc, if_pos hc]
        refine List.pairwise_cons.mpr ⟨?_, ih hys⟩
        intro b hb
        rcases (mem_insertDesc r b ys).mp hb with h2 | h2
        · subst h2; exact Nat.le_of_lt hc
        · exact hy b h2
      · simp only [insertDesc, if_neg hc]
        refine List.pairwise_cons.mpr ⟨?_, h⟩
        intro b hb
        rcases List.mem_cons.mp hb with h2 | h2
        · subst h2; exact Nat.le_of_not_lt hc
        · exact le_trans (hy b h2) (Nat.le_of_not_lt hc)

lemma sortDescRevs_pairwise (l : List Revision) :
    List.Pairwise (fun a b => b.revisionNumber ≤ a.revisionNumber) (sortDescRevs l) := by
  induction l with
  | nil => simp [sortDescRevs]
  | cons x xs ih => exact insertDesc_pairwise x _ ih

lemma sortDescRevs_of_pairwise (l : List Revision)
    (h : List.Pairwise (fun a b => b.revisionNumber ≤ a.revisionNumber) l) :
    sortDescRevs l = l := by
  induction l with
  | nil => rfl
  | cons x xs ih =>
      rcases List.pairwise_cons.mp h with ⟨hx, hxs⟩
      show insertDesc x (sortDescRevs xs) = x :: xs
      rw [ih hxs]
      cases xs with
      | nil => rfl
      | cons y ys =>
          have h2 : ¬ x.revisionNumber < y.revisionNumber :=
            Nat.not_lt.mpr (hx y (List.mem_cons_self y ys))
          simp [insertDesc, h2]

/-- Claim C2: for every Repository, the list returned by the revisions query
is sorted by revisionNumber in descending numeric order, and sorting is
idempotent: applying the sort to the returned list leaves it unchanged, so a
second call yields the same order; the query is a pure function of the
repository state and performs no mutation. -/
theorem revisions_sorted_descending (repo : Repository) :
    List.Pairwise (fun a b => b.revisionNumber ≤ a.revisionNumber) repo.revisions ∧
    sortDescRevs repo.revisions = repo.revisions :=
  ⟨sortDescRevs_pairwise repo.revs,
   sortDescRevs_of_pairwise _ (sortDescRevs_pairwise repo.revs)⟩

/-- Claim C3: merging a record whose identity triple differs from the
repository identity fails with IdentityMismatch, and a caller keeping its
repository on failure observes a completely unchanged state. -/
theorem addRevision_identity_mismatch (repo : Repository) (record : RawRecord)
    (idt : String × String × String) (h : getIdentity record = some idt)
    (hne : idt ≠ (repo.toolShed, repo.owner, repo.name)) :
    addRevision repo record = .error .identityMismatch ∧
    mergeOrKeep repo record = repo := by
  obtain ⟨ts, o, n⟩ := idt
  have hc : ¬ (ts = repo.toolShed ∧ o = repo.owner ∧ n = repo.name) := by
    rintro ⟨h1, h2, h3⟩
    exact hne (by rw [h1, h2, h3])
  have hmain : addRevision repo record = .error .identityMismatch := by
    unfold addRevision
    rw [h]
    simp [hc]
  refine ⟨hmain, ?_⟩
  unfold mergeOrKeep
  rw [hmain]

/-- Record with the trimmomatic identity except for a different owner. -/
def recOtherOwner : RawRecord := { recTrim2 with owner := some "devteam" }

/-- Witness for claim C3: merging a record owned by another account into the
trimmomatic repository fails with IdentityMismatch and changes nothing. -/
theorem addRevision_identity_mismatch_witness :
    addRevision repoTrim2 recOtherOwner = .error .identityMismatch ∧
    mergeOrKeep repoTrim2 recOtherOwner = repoTrim2 :=
  addRevision_identity_mismatch repoTrim2 recOtherOwner
    ("toolshed.g2.bx.psu.edu", "devteam", "trimmomatic") rfl (by decide)

lemma parseRevisionOpt_eq_none (record : RawRecord)
    (hbad : record.ctx_rev.bind parseNatStr = none ∨
            record.changeset_revision = none ∨
            record.status = none ∨
            record.deleted = none ∨
            record.revision_update.bind parseBoolStr = none ∨
            record.revision_upgrade.bind parseBoolStr = none ∨
            record.latest_installable_revision.bind parseBoolStr = none) :
    parseRevisionOpt record = none := by
  unfold parseRevisionOpt
  cases h1 : record.ctx_rev.bind parseNatStr with
  | none => rfl
  | some num =>
    cases h2 : record.changeset_revision with
    | none => rfl
    | some changeset =>
      cases h3 : record.status with
      | none => rfl
      | some st =>
        cases h4 : record.deleted with
        | none => rfl
        | some del =>
          cases h5 : record.revision_update.bind parseBoolStr with
          | none => rfl
          | some upd =>
            cases h6 : record.revision_upgrade.bind parseBoolStr with
            | none => rfl
            | some upg =>
              cases h7 : record.latest_installable_revision.bind parseBoolStr with
              | none => rfl
              | some b =>
                exfalso
                rcases hbad with h | h | h | h | h | h | h <;> simp_all

lemma parseRevision_malformed (record : RawRecord)
    (hbad : record.ctx_rev.bind parseNatStr = none ∨
            record.changeset_revision = none ∨
            record.status = none ∨
            record.deleted = none ∨
            record.revision_update.bind parseBoolStr = none ∨
            record.revision_upgrade.bind parseBoolStr = none ∨
            record.latest_installable_revision.bind parseBoolStr = none) :
    parseRevision record = .error .malformedRecord := by
  unfold parseRevision
  rw [parseRevisionOpt_eq_none record hbad]

/-- Claim C4: merging a record that addresses this repository but whose
ctx_rev is missing or not parseable as an integer — or any other required
field is missing or unparseable — fails with MalformedRecord, and a caller
keeping its repository on failure observes a completely unchanged state
(all-or-nothing merge). -/
theorem addRevision_malformed (repo : Repository) (record : RawRecord)
    (hid : getIdentity record = some (repo.toolShed, repo.owner, repo.name))
    (hbad : record.ctx_rev.bind parseNatStr = none ∨
            record.changeset_revision = none ∨
            record.status = none ∨
            record.deleted = none ∨
            record.revision_update.bind parseBoolStr = none ∨
            record.revision_upgrade.bind parseBoolStr = none ∨
            record.latest_installable_revision.bind parseBoolStr = none) :
    addRevision repo record = .error .malformedRecord ∧
    mergeOrKeep repo record = repo := by
  have hmain : addRevision repo record = .error .malformedRecord := by
    unfold addRevision
    rw [hid]
    simp [parseRevision_malformed record hbad]
  refine ⟨hmain, ?_⟩
  unfold mergeOrKeep
  rw [hmain]

/-- Record with the trimmomatic identity but a ctx_rev that is not a numeric
string. -/
def recBadCtx : RawRecord := { recTrim2 with ctx_rev := some "x" }

/-- Witness for claim C4: a record with unparseable ctx_rev is rejected with
MalformedRecord and the repository is unchanged. -/
theorem addRevision_malformed_witness :
    addRevision repoTrim2 recBadCtx = .error .malformedRecord ∧
    mergeOrKeep repoTrim2 recBadCtx = repoTrim2 :=
  addRevision_malformed repoTrim2 recBadCtx rfl (Or.inl (by decide))

/-- Claim C5: constructing a Repository from any valid single-revision record
yields a revision list of length one whose sole revision carries
latestRevision true. -/
theorem newRepository_single (record : RawRecord) (repo : Repository)
    (h : newRepository record = .ok repo) :
    ∃ rev, repo.revisions = [rev] ∧ rev.latestRevision = true := by
  rcases (newRepository_ok_inv record repo h).2 with ⟨rev0, _, he⟩
  refine ⟨setLatest rev0, ?_, rfl⟩
  show sortDescRevs repo.revs = [setLatest rev0]
  rw [he]
  have h1 : recomputeLatest [rev0] = [setLatest rev0] := by
    simp [recomputeLatest, maxRevisionNumber, markFirstMax]
  rw [h1]
  rfl

/-- Witness for claim C5 at the concrete scenario of the claim: ctx_rev "2",
status Installed, deleted false, string-encoded booleans parsed, yielding
revisionNumber 2 with latestRevision true and the update and upgrade flags
false. -/
theorem newRepository_single_witness :
    newRepository recTrim2 = .ok repoTrim2 ∧
    (∃ rev, repoTrim2.revisions = [rev] ∧ rev.latestRevision = true) ∧
    repoTrim2.revisions =
      [{ revisionNumber := 2, changesetRevision := "a60283899c6d",
         status := "Installed", deleted := false, revisionUpdate := false,
         revisionUpgrade := false, latestRevision := true }] :=
  ⟨rfl, newRepository_single recTrim2 repoTrim2 rfl, rfl⟩

lemma parseRevisionOpt_some_inv (record : RawRecord) (rev : Revision)
    (h : parseRevisionOpt record = some rev) :
    record.ctx_rev.bind parseNatStr = some rev.revisionNumber ∧
    record.changeset_revision = some rev.changesetRevision := by
  unfold parseRevisionOpt at h
  split at h
  · exact Option.noConfusion h
  · split at h
    · exact Option.noConfusion h
    · split at h
      · exact Option.noConfusion h
      · split at h
        · exact Option.noConfusion h
        · split at h
          · exact Option.noConfusion h
          · split at h
            · exact Option.noConfusion h
            · split at h
              · exact Option.noConfusion h
              · injection h with h8
                subst h8
                exact ⟨by assumption, by assumption⟩

lemma revisionId_clearLatest (r : Revision) :
    (clearLatest r).revisionId = r.revisionId := rfl

lemma revisionId_setLatest (r : Revision) :
    (setLatest r).revisionId = r.revisionId := rfl

lemma map_revisionId_clearLatest (l : List Revision) :
    (l.map clearLatest).map Revision.revisionId = l.map Revision.revisionId := by
  induction l with
  | nil => rfl
  | cons x xs ih => simp [revisionId_clearLatest, ih]

lemma map_revisionId_markFirstMax (m : Nat) (revs : List Revision) :
    (markFirstMax m revs).map Revision.revisionId = revs.map Revision.revisionId := by
  induction revs with
  | nil => rfl
  | cons x xs ih =>
      by_cases hx : x.revisionNumber = m
      · simp only [markFirstMax, if_pos hx, List.map_cons, revisionId_setLatest,
          map_revisionId_clearLatest]
      · simp only [markFirstMax, if_neg hx, List.map_cons, revisionId_clearLatest, ih]

/-- Claim C6: the revisionId of a revision parsed from a record is the
literal concatenation of its revisionNumber, a colon, and the changeset
revision of the record, the revisionNumber being the integer parsed from
ctx_rev; moreover every successful merge preserves the revisionId of every
already-present revision (the identifier is stable once assigned), only
appending the id of the added revision. -/
theorem revisionId_format (record : RawRecord) (rev : Revision) (c : String)
    (h1 : parseRevision record = .ok rev) (h2 : record.changeset_revision = some c) :
    rev.revisionId = toString rev.revisionNumber ++ ":" ++ c ∧
    record.ctx_rev.bind parseNatStr = some rev.revisionNumber ∧
    ∀ repo record2 repo2, addRevision repo record2 = .ok repo2 →
      ∃ added, repo2.revs.map Revision.revisionId =
        repo.revs.map Revision.revisionId ++ [Revision.revisionId added] := by
  have hopt : parseRevisionOpt record = some rev := by
    unfold parseRevision at h1
    split at h1
    · rename_i r2 hp
      injection h1 with h3
      rw [← h3]
      exact hp
    · exact Except.noConfusion h1
  rcases parseRevisionOpt_some_inv record rev hopt with ⟨hctx, hcs⟩
  refine ⟨?_, hctx, ?_⟩
  · rw [hcs] at h2
    injection h2 with h3
    unfold Revision.revisionId
    rw [h3]
  · intro repo record2 repo2 hadd
    rcases (addRevision_ok_shape repo record2 repo2 hadd).1 with ⟨added, he⟩
    refine ⟨added, ?_⟩
    rw [he]
    unfold recomputeLatest
    rw [map_revisionId_markFirstMax]
    simp

/-- Revision parsed from recTrim2 before the latest flag is derived. -/
def revTrim2 : Revision :=
  { revisionNumber := 2, changesetRevision := "a60283899c6d", status := "Installed",
    deleted := false, revisionUpdate := false, revisionUpgrade := false,
    latestRevision := false }

/-- Witness for claim C6: revision number 2 with changeset a60283899c6d has
revisionId "2:a60283899c6d". -/
theorem revisionId_format_witness :
    parseRevision recTrim2 = .ok revTrim2 ∧
    revTrim2.revisionId = "2:a60283899c6d" := by
  refine ⟨rfl, ?_⟩
  have h := (revisionId_format recTrim2 revTrim2 "a60283899c6d" rfl rfl).1
  rw [h]
  decide

/-- Claim C7: the compositeId of a Repository built from a record is the
toolshed host, owner and name of the record joined by slashes, and merging
further revisions never changes it: the accessor is a pure derived key of the
repository identity. -/
theorem compositeId_format (record : RawRecord) (repo : Repository)
    (ts o n : String)
    (h1 : record.tool_shed = some ts) (h2 : record.owner = some o)
    (h3 : record.name = some n) (h4 : newRepository record = .ok repo) :
    repo.compositeId = ts ++ "/" ++ o ++ "/" ++ n ∧
    ∀ record2 repo2, addRevision repo record2 = .ok repo2 →
      repo2.compositeId = repo.compositeId := by
  have hid : getIdentity record = some (ts, o, n) := by
    unfold getIdentity
    rw [h1, h2, h3]
  have h7 := (newRepository_ok_inv record repo h4).1
  rw [hid] at h7
  injection h7 with h8
  simp only [Prod.mk.injEq] at h8
  obtain ⟨ha, hb, hc⟩ := h8
  constructor
  · unfold Repository.compositeId
    rw [ha, hb, hc]
  · intro record2 repo2 hadd
    rcases addRevision_ok_shape repo record2 repo2 hadd with ⟨_, hts, how, hn⟩
    unfold Repository.compositeId
    rw [hts, how, hn]

/-- Witness for claim C7: the trimmomatic repository has compositeId
"toolshed.g2.bx.psu.edu/pjbriggs/trimmomatic". -/
theorem compositeId_format_witness :
    newRepository recTrim2 = .ok repoTrim2 ∧
    repoTrim2.compositeId = "toolshed.g2.bx.psu.edu/pjbriggs/trimmomatic" := by
  refine ⟨rfl, ?_⟩
  have h := (compositeId_format recTrim2 repoTrim2 "toolshed.g2.bx.psu.edu"
    "pjbriggs" "trimmomatic" rfl rfl rfl rfl).1
  rw [h]
  decide

/-- Claim C8: for a record carrying an id, Quota.update raises exactly when
that id differs from the quota id, and when it raises the quota is left with
every attribute unchanged — the identity check happens before any attribute
is written. -/
theorem quota_update_raises_iff {α : Type} [DecidableEq α] (q : Quota α)
    (d : List (String × α)) (v : α) (h : d.lookup "id" = some v) :
    ((Quota.update q d).isOk = false ↔ v ≠ q.id) ∧
    (v ≠ q.id → updateOrKeep q d = q) := by
  unfold updateOrKeep Quota.update
  rw [h]
  by_cases hv : v = q.id
  · simp [hv, Except.isOk, Except.toBool]
  · simp [hv, Except.isOk, Except.toBool]

/-- Concrete quota used by the witnesses of claim C8. -/
def quotaW : Quota String := { id := "q1", attrs := [("name", "alpha")] }

/-- Record for a different quota id, used by the witness of claim C8. -/
def quotaDataW : List (String × String) := [("id", "q2"), ("name", "beta")]

/-- Witness for claim C8: updating quota q1 with a record for quota q2 raises
and leaves the quota unchanged. -/
theorem quota_update_raises_iff_witness :
    ((Quota.update quotaW quotaDataW).isOk = false) ∧
    updateOrKeep quotaW quotaDataW = quotaW :=
  ⟨(quota_update_raises_iff quotaW quotaDataW "q2" rfl).1.mpr (by decide),
   (quota_update_raises_iff quotaW quotaDataW "q2" rfl).2 (by decide)⟩

/-- Claim C9: for every non-empty quota specification, handle_quota_spec
returns an operation drawn from the valid operations together with an
amount; when the first character is one of the valid operations it becomes
the operation and the rest the amount (so operation followed by amount spells
the input), otherwise the operation defaults to the equals sign and the whole
input is the amount. -/
theorem handle_quota_spec_split (s : String) (c : Char) (cs : List Char)
    (h : s.data = c :: cs) :
    (∃ op amount, handle_quota_spec s = some (op, amount) ∧ op ∈ valid_operations) ∧
    (c ∈ valid_operations →
      handle_quota_spec s = some (c, String.mk cs) ∧ String.mk [c] ++ String.mk cs = s) ∧
    (c ∉ valid_operations → handle_quota_spec s = some ('=', s)) := by
  have hs : String.mk [c] ++ String.mk cs = s := by
    have h2 : String.mk [c] ++ String.mk cs = String.mk (c :: cs) := rfl
    rw [h2, ← h]
  unfold handle_quota_spec
  rw [h]
  by_cases hc : c ∈ valid_operations
  · exact ⟨⟨c, String.mk cs, by simp [hc], hc⟩,
           fun _ => ⟨by simp [hc], hs⟩,
           fun hc2 => absurd hc hc2⟩
  · exact ⟨⟨'=', s, by simp [hc], by decide⟩,
           fun hc2 => absurd hc2 hc,
           fun _ => by simp [hc]⟩

/-- Witness for claim C9 at the specification "+100": operation '+' and
amount "100", whose concatenation spells the input back. -/
theorem handle_quota_spec_split_witness :
    handle_quota_spec "+100" = some ('+', String.mk ['1', '0', '0']) ∧
    String.mk ['+'] ++ String.mk ['1', '0', '0'] = "+100" :=
  (handle_quota_spec_split "+100" '+' ['1', '0', '0'] rfl).2.1 (by decide)

lemma isPrefixOf_append_self (p u : List Char) : p.isPrefixOf (p ++ u) = true := by
  induction p with
  | nil => simp [List.isPrefixOf]
  | cons c cs ih => simp [List.isPrefixOf, ih]

/-- Claim C10: a URL starting with an http or https scheme is returned
unchanged by normalise_toolshed_url, any other string is returned with
https prepended, and the function is idempotent. -/
theorem normalise_toolshed_url_spec (u : String) :
    (("http://".data.isPrefixOf u.data = true ∨ "https://".data.isPrefixOf u.data = true) →
       normalise_toolshed_url u = u) ∧
    (¬ ("http://".data.isPrefixOf u.data = true ∨ "https://".data.isPrefixOf u.data = true) →
       normalise_toolshed_url u = "https://" ++ u) ∧
    normalise_toolshed_url (normalise_toolshed_url u) = normalise_toolshed_url u := by
  refine ⟨?_, ?_, ?_⟩
  · intro h
    unfold normalise_toolshed_url
    rw [if_pos h]
  · intro h
    unfold normalise_toolshed_url
    rw [if_neg h]
  · by_cases hc :
      ("http://".data.isPrefixOf u.data = true ∨ "https://".data.isPrefixOf u.data = true)
    · have h1 : normalise_toolshed_url u = u := by
        unfold normalise_toolshed_url
        rw [if_pos hc]
      rw [h1, h1]
    · have h1 : normalise_toolshed_url u = "https://" ++ u := by
        unfold normalise_toolshed_url
        rw [if_neg hc]
      rw [h1]
      have h2 : "https://".data.isPrefixOf ("https://" ++ u).data = true := by
        rw [String.data_append]
        exact isPrefixOf_append_self _ _
      unfold normalise_toolshed_url
      rw [if_pos (Or.inr h2)]

/-- Witness for claim C10 at the urls of the test suite: a bare host gets the
https scheme prepended, an https url is unchanged. -/
theorem normalise_toolshed_url_spec_witness :
    normalise_toolshed_url "127.0.0.1:9009" = "https://" ++ "127.0.0.1:9009" ∧
    normalise_toolshed_url "https://toolshed.g2.bx.psu.edu" =
      "https://toolshed.g2.bx.psu.edu" :=
  ⟨(normalise_toolshed_url_spec "127.0.0.1:9009").2.1 (by decide),
   (normalise_toolshed_url_spec "https://toolshed.g2.bx.psu.edu").1 (by decide)⟩
